import Mathlib

/-!
Verification of the dostobot decision pipeline against its specification.

This file shallowly embeds the relevant Go source of the repository:

  * `internal/monitor/filter.go`     — Safety Filter (`Filter.Check`, `Filter.FilterTrends`)
  * `internal/poster/formatter.go`   — Post Formatter (`TruncateQuote`)
  * matcher package (`vector_index.go` part): `VectorIndex.Search`,
    `VectorIndex.SearchWithThreshold`
  * matcher package (`selector.go` part): `extractJSON`, `Selector.EvaluateBatch`
  * matcher package (`matcher.go` part): `Matcher.Match` and its defaulting
  * `internal/embedder/embedder.go`  — `CosineSimilarity`, `Normalize`
  * `internal/monitor/aggregator.go` — `Aggregator.storeTrend`, `Aggregator.FetchAndStore`
  * `internal/scheduler/scheduler.go`— `Scheduler.runPostCycle`

Modelling conventions, used throughout and noted again at each definition:

  * Go strings are modelled as `List Char` (rune sequences).  The Go code
    indexes bytes in a few places (`strings.LastIndex`, slicing); for the
    ASCII inputs handled by the theorems and witnesses below the byte and
    rune views coincide.
  * Go `float32`/`float64` values are modelled as exact rationals (`ℚ`)
    where only ordering and equality matter (thresholds, scores), and as
    real numbers (`ℝ`) where square roots occur (`CosineSimilarity`,
    `Normalize`).  Rounding error, NaN and infinities are out of scope.
  * Go machine integers (`int`, `int64`) are modelled as `ℤ`.
  * External effects (HTTP completions, the embedding provider, SQL row
    sets) are passed in explicitly: a fallible call becomes an
    `Except String α` argument, and the SQLite tables touched by the
    aggregator/scheduler become explicit list-of-rows state.
  * `sort.Slice` is NOT a stable sort (its Go documentation only promises
    a sorted permutation), so the two vector-index searches are embedded
    relationally: the admissible outputs are exactly the sorted
    permutations of the scored list.
-/

namespace Dostobot

/-- Text modelled as a rune sequence (Go `string`). -/
abbrev Str := List Char

/-- Shorthand to turn a Lean string literal into the rune-list model. -/
def str (s : String) : Str := s.toList

/-- Lowercasing, rune by rune (Go `strings.ToLower`; coincides for ASCII). -/
def toLowerList (s : Str) : Str := s.map Char.toLower

/-- `startsWithSub s t` holds when `t` is a prefix of `s`
(helper for Go `strings.Contains`). -/
def startsWithSub : Str → Str → Bool
  | _, [] => true
  | [], _ :: _ => false
  | a :: s, b :: t => a = b && startsWithSub s t

/-- Go `strings.Contains s t`: does `t` occur as a contiguous substring of `s`?
`containsSub s [] = true`, as in Go. -/
def containsSub : Str → Str → Bool
  | [], t => t.isEmpty
  | c :: rest, t => startsWithSub (c :: rest) t || containsSub rest t

theorem startsWithSub_append (s s' t : Str) (h : startsWithSub s t = true) :
    startsWithSub (s ++ s') t = true := by
  induction s generalizing t with
  | nil =>
    cases t with
    | nil => simp [startsWithSub]
    | cons b t => simp [startsWithSub] at h
  | cons a s ih =>
    cases t with
    | nil => simp [startsWithSub]
    | cons b t =>
      simp only [startsWithSub, Bool.and_eq_true, decide_eq_true_eq] at h
      simp only [List.cons_append, startsWithSub, Bool.and_eq_true, decide_eq_true_eq]
      exact ⟨h.1, ih t h.2⟩

theorem containsSub_append_right (s s' t : Str) (h : containsSub s t = true) :
    containsSub (s ++ s') t = true := by
  induction s with
  | nil =>
    simp only [containsSub, List.isEmpty_iff] at h
    subst h
    cases s' with
    | nil => simp [containsSub]
    | cons c cs => simp [containsSub, startsWithSub]
  | cons c rest ih =>
    simp only [containsSub, Bool.or_eq_true] at h
    rcases h with h | h
    · simp only [List.cons_append, containsSub, Bool.or_eq_true]
      exact Or.inl (startsWithSub_append _ _ _ h)
    · simp only [List.cons_append, containsSub, Bool.or_eq_true]
      exact Or.inr (ih h)

theorem containsSub_append_left (s s' t : Str) (h : containsSub s' t = true) :
    containsSub (s ++ s') t = true := by
  induction s with
  | nil => simpa using h
  | cons c rest ih =>
    simp only [List.cons_append, containsSub, Bool.or_eq_true]
    exact Or.inr ih

/-- A trend record as produced by the monitors
(`internal/monitor/monitor.go`): only the fields the embedded
functions read are carried.  `score` is a Go `int`, modelled as `ℤ`. -/
structure Trend where
  source : Str
  externalId : Str
  title : Str
  url : Str
  description : Str
  score : ℤ
  deriving Repr, DecidableEq, Inhabited

/-- The static denylist `SensitiveTopics` from `internal/monitor/filter.go`,
verbatim. -/
def SensitiveTopics : List Str :=
  ([ "trump", "biden", "obama", "clinton", "putin", "xi jinping",
     "maga", "democrat", "republican", "liberal", "conservative",
     "abortion", "pro-life", "pro-choice",
     "gun control", "second amendment", "2nd amendment",
     "immigration", "border", "deportation",
     "lgbtq", "transgender", "gay rights",
     "shooting", "massacre", "terrorist", "terrorism",
     "murder", "killed", "death toll", "casualties",
     "suicide", "self-harm",
     "atheism", "christian", "muslim", "jewish", "religion debate",
     "nsfw", "porn", "sex", "nude",
     "racist", "racism", "nazi", "white supremac", "hate crime",
     "ukraine", "russia war", "gaza", "israel", "hamas",
     "qanon", "deep state", "illuminati", "flat earth",
     "anti-vax", "plandemic" ] : List String).map String.toList

/-- The safety filter state (`Filter` in `internal/monitor/filter.go`). -/
structure Filter where
  sensitiveTerms : List Str
  minScore : ℤ
  deriving Repr

/-- `NewFilter` (`internal/monitor/filter.go`): copies the static denylist,
appends the operator-supplied terms, and lowercases everything. -/
def NewFilter (additionalTerms : List Str) (minScore : ℤ) : Filter :=
  { sensitiveTerms := (SensitiveTopics ++ additionalTerms).map toLowerList
    minScore := minScore }

/-- The filter decision (`FilterResult` in `internal/monitor/filter.go`). -/
structure FilterResult where
  pass : Bool
  reason : Str
  deriving Repr, DecidableEq

/-- `Filter.Check` (`internal/monitor/filter.go` lines 79-101): reject when
the score is below a positive `minScore`, otherwise when the lowercased
`title ++ " " ++ description` contains any denylisted term; the first
matching term is reported verbatim. -/
def Filter.Check (f : Filter) (t : Trend) : FilterResult :=
  if f.minScore > 0 ∧ t.score < f.minScore then
    ⟨false, str "score below threshold"⟩
  else
    let text := toLowerList (t.title ++ str " " ++ t.description)
    match f.sensitiveTerms.find? (fun term => containsSub text term) with
    | some term => ⟨false, str "contains sensitive topic: " ++ term⟩
    | none => ⟨true, []⟩

/-- `Filter.FilterTrends` (`internal/monitor/filter.go` lines 104-114):
keep, in order, exactly the trends whose `Check` passes. -/
def Filter.FilterTrends (f : Filter) (trends : List Trend) : List Trend :=
  trends.filter (fun t => (f.Check t).pass)

theorem check_fails_of_term_in_text (f : Filter) (t : Trend) (term : Str)
    (hmem : term ∈ f.sensitiveTerms)
    (hsub : containsSub (toLowerList (t.title ++ str " " ++ t.description)) term = true) :
    (f.Check t).pass = false := by
  unfold Filter.Check
  by_cases hscore : f.minScore > 0 ∧ t.score < f.minScore
  · simp [hscore]
  · have hfind : (f.sensitiveTerms.find?
        (fun term => containsSub (toLowerList (t.title ++ str " " ++ t.description)) term)).isSome := by
      rw [List.find?_isSome]
      exact ⟨term, hmem, hsub⟩
    simp only [if_neg hscore]
    rcases Option.isSome_iff_exists.mp hfind with ⟨w, hw⟩
    simp only [List.append_assoc] at hw ⊢
    simp [hw]

/-- C7: `FilterTrends` is a pure, order-preserving filter: its output is
exactly the subsequence of input trends passing `Check`; any trend whose
title or description contains a denylisted term (matched case-insensitively:
the stored terms are lowercased and the text is lowercased before the
substring test) is excluded, and any trend with score below a configured
(positive) `minScore` is excluded regardless of content. -/
theorem C7_filter_safety (f : Filter) (trends : List Trend) :
    (f.FilterTrends trends).Sublist trends ∧
    (∀ t : Trend, t ∈ f.FilterTrends trends ↔ t ∈ trends ∧ (f.Check t).pass = true) ∧
    (∀ t : Trend, ∀ term ∈ f.sensitiveTerms,
      (containsSub (toLowerList t.title) term = true ∨
        containsSub (toLowerList t.description) term = true) →
      t ∉ f.FilterTrends trends) ∧
    (∀ t : Trend, 0 < f.minScore → t.score < f.minScore → t ∉ f.FilterTrends trends) := by
  refine ⟨List.filter_sublist trends, ?_, ?_, ?_⟩
  · intro t
    simp [Filter.FilterTrends, List.mem_filter]
  · intro t term hmem hsub hin
    have hpass : (f.Check t).pass = true := by
      have := List.mem_filter.mp hin
      exact this.2
    have hfull : containsSub (toLowerList (t.title ++ str " " ++ t.description)) term = true := by
      rcases hsub with h | h
      · simp only [toLowerList, List.map_append] at h ⊢
        have := containsSub_append_right _ ((str " ").map Char.toLower ++ t.description.map Char.toLower) _ h
        simpa [List.append_assoc] using this
      · simp only [toLowerList, List.map_append] at h ⊢
        have := containsSub_append_left (t.title.map Char.toLower ++ (str " ").map Char.toLower) _ _ h
        simpa [List.append_assoc] using this
    have := check_fails_of_term_in_text f t term hmem hfull
    rw [this] at hpass
    exact Bool.false_ne_true hpass
  · intro t hms hscore hin
    have hpass : (f.Check t).pass = true := (List.mem_filter.mp hin).2
    have : (f.Check t).pass = false := by
      unfold Filter.Check
      have : f.minScore > 0 ∧ t.score < f.minScore := ⟨hms, hscore⟩
      simp [this]
    rw [this] at hpass
    exact Bool.false_ne_true hpass

/-- Witness for C7 at a concrete input: the denylisted term "trump"
appears (case-insensitively) in a concrete trend's title and that trend is
excluded from `FilterTrends`'s output. -/
theorem C7_filter_safety_witness :
    (⟨str "hn", str "1", str "Trump signs order", [], [], 10⟩ : Trend) ∉
      (NewFilter [] 0).FilterTrends
        [⟨str "hn", str "1", str "Trump signs order", [], [], 10⟩] :=
  (C7_filter_safety (NewFilter [] 0)
      [⟨str "hn", str "1", str "Trump signs order", [], [], 10⟩]).2.2.1
    ⟨str "hn", str "1", str "Trump signs order", [], [], 10⟩ (str "trump")
    (by decide) (Or.inl (by decide))

/-- The trailing cutset Go's `TruncateQuote` trims: `" .,;:!?"`. -/
def cutset : Str := str " .,;:!?"

/-- Go `strings.TrimRight(s, " .,;:!?")`: drop trailing runes in the cutset. -/
def trimRightCutset (l : Str) : Str :=
  (l.reverse.dropWhile (fun c => cutset.contains c)).reverse

/-- The appended ellipsis `"..."`. -/
def ellipsis : Str := str "..."

/-- Go `strings.LastIndex(l, " ")`: index of the last space, `-1` if none
(byte and rune indices coincide on the ASCII inputs considered). -/
def lastSpaceIndex : Str → ℤ
  | [] => -1
  | c :: rest =>
    let r := lastSpaceIndex rest
    if 0 ≤ r then r + 1
    else if c = ' ' then 0 else -1

theorem lastSpaceIndex_ge_neg_one (l : Str) : -1 ≤ lastSpaceIndex l := by
  induction l with
  | nil => simp [lastSpaceIndex]
  | cons c rest ih =>
    simp only [lastSpaceIndex]
    split
    · omega
    · split <;> omega

theorem lastSpaceIndex_get (l : Str) (h : 0 ≤ lastSpaceIndex l) :
    l.get? (lastSpaceIndex l).toNat = some ' ' := by
  induction l with
  | nil => simp [lastSpaceIndex] at h
  | cons c rest ih =>
    simp only [lastSpaceIndex] at h ⊢
    by_cases hr : 0 ≤ lastSpaceIndex rest
    · have h1 : (lastSpaceIndex rest + 1).toNat = (lastSpaceIndex rest).toNat + 1 := by omega
      simp only [if_pos hr, h1, List.get?_cons_succ]
      exact ih hr
    · simp only [if_neg hr] at h ⊢
      by_cases hc : c = ' '
      · simp [hc]
      · simp [hc] at h

theorem lastSpaceIndex_last (l : Str) (j : ℕ) (h : lastSpaceIndex l < (j : ℤ)) :
    l.get? j ≠ some ' ' := by
  induction l generalizing j with
  | nil => simp
  | cons c rest ih =>
    cases j with
    | zero =>
      simp only [lastSpaceIndex] at h
      by_cases hr : 0 ≤ lastSpaceIndex rest
      · simp [if_pos hr] at h; omega
      · simp only [if_neg hr] at h
        by_cases hc : c = ' '
        · simp [hc] at h
        · simp only [List.get?_cons_zero, ne_eq, Option.some.injEq]
          exact hc
    | succ j' =>
      simp only [List.get?_cons_succ]
      apply ih
      simp only [lastSpaceIndex] at h
      by_cases hr : 0 ≤ lastSpaceIndex rest
      · simp only [if_pos hr] at h
        push_cast at h ⊢
        omega
      · have := lastSpaceIndex_ge_neg_one rest
        omega

/-- The quote-space budget computed by `TruncateQuote`
(`internal/poster/formatter.go` line 45-46): `maxLen` minus a fixed overhead
of `4 + len(attribution) + 4` (quote marks, ellipsis, newlines, em dash,
space). -/
def availableBudget (maxLen : ℤ) (attribution : Str) : ℤ :=
  maxLen - (4 + (attribution.length : ℤ) + 4)

/-- `TruncateQuote` (`internal/poster/formatter.go` lines 42-67).
Text is modelled as runes.  The division `available / 2` agrees with Go's
for every `available ≥ 0`; for `available < 0` and a long quote the Go code
panics on `runes[:available]` before ever dividing, while the model clamps
with `Int.toNat` — the theorems below stay in the non-negative-budget
region, where model and code coincide. -/
def TruncateQuote (quote : Str) (maxLen : ℤ) (attribution : Str) : Str :=
  let available := availableBudget maxLen attribution
  if (quote.length : ℤ) ≤ available + 3 then quote
  else if (quote.length : ℤ) ≤ available then quote
  else
    let truncated := quote.take available.toNat
    let lastSpace := lastSpaceIndex truncated
    let truncated2 :=
      if available / 2 < lastSpace then truncated.take lastSpace.toNat else truncated
    trimRightCutset truncated2 ++ ellipsis

/-- Formalisation of claim C6 as stated, at one input: whenever truncation
occurs and some whitespace exists in the truncation range, the output is
obtained by cutting at the last whitespace boundary at or before the
budget (then trimming and appending the ellipsis). -/
def ClaimC6At (quote : Str) (maxLen : ℤ) (attribution : Str) : Prop :=
  availableBudget maxLen attribution + 3 < (quote.length : ℤ) →
  lastSpaceIndex (quote.take (availableBudget maxLen attribution).toNat) ≠ -1 →
  TruncateQuote quote maxLen attribution =
    trimRightCutset (quote.take
      (lastSpaceIndex (quote.take (availableBudget maxLen attribution).toNat)).toNat) ++
      ellipsis

/-- C6 counterexample: with `maxLen = 20` and empty attribution the budget
is `12`; the quote `"ab cdefghijklmnopqrs"` has its last in-budget space at
index `2 ≤ 12/2`, so the code keeps the raw 12-rune cut and the output
`"ab cdefghijk..."` ends in the middle of the word
`"cdefghijklmnopqrs"` even though whitespace exists in the truncation
range — refuting the claim, which demands `"ab..."` here. -/
theorem C6_counterexample :
    ¬ ClaimC6At (str "ab cdefghijklmnopqrs") 20 [] ∧
    TruncateQuote (str "ab cdefghijklmnopqrs") 20 [] = str "ab cdefghijk..." := by
  constructor
  · intro h
    have := h (by decide) (by decide)
    revert this
    decide
  · decide

/-- C6 amended: `TruncateQuote` cuts at the last space boundary only when
that space lies strictly past half the available budget; in that case the
output is the prefix up to that space (trimmed, with an ellipsis), the rune
at the cut position in the original quote is a space, and no space occurs
after it within the budget.  (When the last in-budget space is at or before
`available / 2`, the code instead cuts mid-word — see the
counterexample.) -/
theorem C6_truncate_word_boundary (quote : Str) (maxLen : ℤ) (attribution : Str)
    (avail s : ℤ)
    (hav : avail = availableBudget maxLen attribution)
    (hs : s = lastSpaceIndex (quote.take avail.toNat))
    (hTrunc : avail + 3 < (quote.length : ℤ))
    (hAvail : 0 ≤ avail)
    (hSpace : avail / 2 < s) :
    TruncateQuote quote maxLen attribution =
      trimRightCutset (quote.take s.toNat) ++ ellipsis ∧
    quote.get? s.toNat = some ' ' ∧
    ∀ j : ℕ, s < (j : ℤ) → (j : ℤ) < avail → quote.get? j ≠ some ' ' := by
  subst hav
  subst hs
  have hs0 : 0 ≤ lastSpaceIndex (quote.take (availableBudget maxLen attribution).toNat) :=
    le_trans (Int.ediv_nonneg hAvail (by omega)) (le_of_lt hSpace)
  have hget : (quote.take (availableBudget maxLen attribution).toNat).get?
      (lastSpaceIndex (quote.take (availableBudget maxLen attribution).toNat)).toNat =
      some ' ' := lastSpaceIndex_get _ hs0
  have hlt : (lastSpaceIndex (quote.take (availableBudget maxLen attribution).toNat)).toNat <
      (quote.take (availableBudget maxLen attribution).toNat).length := by
    by_contra hc
    push_neg at hc
    rw [List.get?_eq_none.mpr hc] at hget
    exact Option.noConfusion hget
  have hle : (lastSpaceIndex (quote.take (availableBudget maxLen attribution).toNat)).toNat ≤
      (availableBudget maxLen attribution).toNat := by
    have := List.length_take (availableBudget maxLen attribution).toNat quote
    omega
  have h1 : ¬ ((quote.length : ℤ) ≤ availableBudget maxLen attribution + 3) := by omega
  have h2 : ¬ ((quote.length : ℤ) ≤ availableBudget maxLen attribution) := by omega
  have htt : (quote.take (availableBudget maxLen attribution).toNat).take
      (lastSpaceIndex (quote.take (availableBudget maxLen attribution).toNat)).toNat =
      quote.take (lastSpaceIndex (quote.take (availableBudget maxLen attribution).toNat)).toNat := by
    rw [List.take_take]
    congr 1
    omega
  refine ⟨?_, ?_, ?_⟩
  · simp only [TruncateQuote, if_neg h1, if_neg h2, if_pos hSpace, htt]
  · have hsA : (lastSpaceIndex (quote.take (availableBudget maxLen attribution).toNat)).toNat <
        (availableBudget maxLen attribution).toNat := by
      rw [List.length_take] at hlt
      omega
    rw [List.get?_take hsA] at hget
    exact hget
  · intro j hj1 hj2
    have hjlt : (j : ℤ) < ((availableBudget maxLen attribution).toNat : ℤ) := by omega
    have hjn : j < (availableBudget maxLen attribution).toNat := by exact_mod_cast hjlt
    have := lastSpaceIndex_last (quote.take (availableBudget maxLen attribution).toNat) j hj1
    rw [List.get?_take hjn] at this
    exact this

/-- Witness for C6 (amended): with `maxLen = 16` the budget is `8`; the
last in-budget space of `"hello world ABC"` is at index `5 > 8/2`, and the
output cuts exactly there: `"hello..."`. -/
theorem C6_truncate_word_boundary_witness :
    TruncateQuote (str "hello world ABC") 16 [] = str "hello..." := by
  have h := (C6_truncate_word_boundary (str "hello world ABC") 16 [] 8 5 (by decide) (by decide)
    (by decide) (by decide) (by decide)).1
  rw [h]
  decide

/-- The opening brace character, written via its code point so that text
processing stays independent of source-literal escaping. -/
def lbrace : Char := Char.ofNat 123

/-- The closing brace character. -/
def rbrace : Char := Char.ofNat 125

/-- Scanner loop of `extractJSON` (matcher package, selector part,
lines 474-488): walk the text from the first opening brace, tracking brace
depth; when the depth returns to zero, yield the balanced slice (built in
`acc`, reversed); if the text ends first, yield `""`. -/
def extractJSONAux : Str → ℤ → Str → Str
  | [], _, _ => []
  | c :: rest, depth, acc =>
    if c = lbrace then extractJSONAux rest (depth + 1) (c :: acc)
    else if c = rbrace then
      if depth - 1 = 0 then (c :: acc).reverse
      else extractJSONAux rest (depth - 1) (c :: acc)
    else extractJSONAux rest depth (c :: acc)

/-- `extractJSON` (matcher package, selector part, lines 467-489): find the
first `{`; if none, return `""`; otherwise return the slice up to the
brace-depth-matching `}`, or `""` when the braces never rebalance.  Braces
inside JSON string literals are counted too, exactly as in the source. -/
def extractJSON (text : Str) : Str :=
  match text.dropWhile (fun c => c ≠ lbrace) with
  | [] => []
  | c :: rest => extractJSONAux (c :: rest) 0 []

/-- JSON whitespace accepted by Go's `encoding/json`. -/
def isJsonWs (c : Char) : Bool := c = ' ' || c = '\t' || c = '\n' || c = '\r'

/-- Skip leading JSON whitespace. -/
def skipWs (s : Str) : Str := s.dropWhile isJsonWs

/-- A decoded JSON value.  `jnum` keeps the exact rational value and, when
the literal had neither fraction nor exponent, its integer reading —
mirroring Go's decoder, which runs `strconv.ParseInt` on the raw literal
for integer struct fields (so `1.0` or `1e2` into an `int` field errors). -/
inductive JVal where
  | jnull : JVal
  | jbool : Bool → JVal
  | jnum : Option ℤ → ℚ → JVal
  | jstr : Str → JVal
  | jarr : List JVal → JVal
  | jobj : List (Str × JVal) → JVal
  deriving Repr, Inhabited

/-- Hex digit value, for `\uXXXX` escapes. -/
def hexVal (c : Char) : Option ℕ :=
  if '0' ≤ c ∧ c ≤ '9' then some (c.toNat - 48)
  else if 'a' ≤ c ∧ c ≤ 'f' then some (c.toNat - 87)
  else if 'A' ≤ c ∧ c ≤ 'F' then some (c.toNat - 55)
  else none

/-- JSON string body after the opening quote: ordinary runes, the standard
escapes, and `\uXXXX`; unescaped control characters are rejected, as in
Go.  (Surrogate-pair recombination is not modelled; no input below uses
it.) -/
def parseStringBody : ℕ → Str → Str → Option (Str × Str)
  | 0, _, _ => none
  | _ + 1, [], _ => none
  | fuel + 1, c :: rest, acc =>
    if c = '"' then some (acc.reverse, rest)
    else if c = '\\' then
      match rest with
      | [] => none
      | e :: rest2 =>
        if e = '"' then parseStringBody fuel rest2 ('"' :: acc)
        else if e = '\\' then parseStringBody fuel rest2 ('\\' :: acc)
        else if e = '/' then parseStringBody fuel rest2 ('/' :: acc)
        else if e = 'b' then parseStringBody fuel rest2 (Char.ofNat 8 :: acc)
        else if e = 'f' then parseStringBody fuel rest2 (Char.ofNat 12 :: acc)
        else if e = 'n' then parseStringBody fuel rest2 ('\n' :: acc)
        else if e = 'r' then parseStringBody fuel rest2 ('\r' :: acc)
        else if e = 't' then parseStringBody fuel rest2 ('\t' :: acc)
        else if e = 'u' then
          match rest2 with
          | h1 :: h2 :: h3 :: h4 :: rest3 =>
            match hexVal h1, hexVal h2, hexVal h3, hexVal h4 with
            | some a, some b, some c2, some d =>
              parseStringBody fuel rest3 (Char.ofNat (((a * 16 + b) * 16 + c2) * 16 + d) :: acc)
            | _, _, _, _ => none
          | _ => none
        else none
    else if c.toNat < 32 then none
    else parseStringBody fuel rest (c :: acc)

/-- Greedily consume decimal digits, returning the value, the digit count
and the remainder. -/
def takeDigits : Str → ℕ → ℕ → ℕ × ℕ × Str
  | [], val, cnt => (val, cnt, [])
  | c :: rest, val, cnt =>
    if c.isDigit then takeDigits rest (val * 10 + (c.toNat - 48)) (cnt + 1)
    else (val, cnt, c :: rest)

/-- JSON number literal: `-? (0 | [1-9][0-9]*) ('.' [0-9]+)? ([eE][+-]?[0-9]+)?`.
Returns the integer reading (when the literal is a bare integer), the exact
rational value, and the remainder. -/
def parseNumber (s : Str) : Option ((Option ℤ × ℚ) × Str) :=
  let negAndRest : Bool × Str :=
    match s with
    | c :: r => if c = '-' then (true, r) else (false, s)
    | [] => (false, [])
  let neg := negAndRest.1
  let s1 := negAndRest.2
  match s1 with
  | [] => none
  | c0 :: _ =>
    if ¬ c0.isDigit then none
    else
      match takeDigits s1 0 0 with
      | (ival, icnt, s2) =>
        if c0 = '0' ∧ 1 < icnt then none
        else
          let fracStep : Option (Bool × ℚ × Str) :=
            match s2 with
            | '.' :: s3 =>
              match takeDigits s3 0 0 with
              | (fval, fcnt, s4) =>
                if fcnt = 0 then none
                else some (true, (fval : ℚ) / (10 : ℚ) ^ fcnt, s4)
            | _ => some (false, 0, s2)
          match fracStep with
          | none => none
          | some (hasFrac, fq, s4) =>
            let expStep : Option (Bool × ℤ × Str) :=
              match s4 with
              | c :: s5 =>
                if c = 'e' ∨ c = 'E' then
                  let signAndRest : ℤ × Str :=
                    match s5 with
                    | '+' :: s6 => (1, s6)
                    | '-' :: s6 => (-1, s6)
                    | _ => (1, s5)
                  match takeDigits signAndRest.2 0 0 with
                  | (eval2, ecnt, s7) =>
                    if ecnt = 0 then none
                    else some (true, signAndRest.1 * (eval2 : ℤ), s7)
                else some (false, 0, c :: s5)
              | [] => some (false, 0, [])
            match expStep with
            | none => none
            | some (hasExp, e, s7) =>
              let mag : ℚ := ((ival : ℚ) + fq) * (10 : ℚ) ^ e
              let q : ℚ := if neg then -mag else mag
              let intLit : Option ℤ :=
                if hasFrac ∨ hasExp then none
                else some (if neg then -(ival : ℤ) else (ival : ℤ))
              some ((intLit, q), s7)

/-- `litNull`, `litTrue`, `litFalse` prefix tests for the JSON keyword
literals. -/
def dropLit (lit : Str) (s : Str) : Option Str :=
  if startsWithSub s lit ∧ lit.length ≤ s.length then some (s.drop lit.length) else none

mutual

/-- Recursive-descent JSON value parser (fuel-indexed; fuel exceeding the
input length makes the fuel bound immaterial). -/
def parseValue : ℕ → Str → Option (JVal × Str)
  | 0, _ => none
  | fuel + 1, s =>
    match skipWs s with
    | [] => none
    | c :: rest =>
      if c = lbrace then
        match skipWs rest with
        | c2 :: rest2 =>
          if c2 = rbrace then some (.jobj [], rest2)
          else parseMembers fuel (c2 :: rest2) []
        | [] => none
      else if c = '[' then
        match skipWs rest with
        | ']' :: rest2 => some (.jarr [], rest2)
        | other => parseElems fuel other []
      else if c = '"' then
        match parseStringBody (rest.length + 1) rest [] with
        | some (body, rest2) => some (.jstr body, rest2)
        | none => none
      else if c = 'n' then
        match dropLit (str "null") (c :: rest) with
        | some rest2 => some (.jnull, rest2)
        | none => none
      else if c = 't' then
        match dropLit (str "true") (c :: rest) with
        | some rest2 => some (.jbool true, rest2)
        | none => none
      else if c = 'f' then
        match dropLit (str "false") (c :: rest) with
        | some rest2 => some (.jbool false, rest2)
        | none => none
      else if c = '-' ∨ c.isDigit then
        match parseNumber (c :: rest) with
        | some ((z, q), rest2) => some (.jnum z q, rest2)
        | none => none
      else none

/-- Object members: `"key" : value (, "key" : value)* }`. -/
def parseMembers : ℕ → Str → List (Str × JVal) → Option (JVal × Str)
  | 0, _, _ => none
  | fuel + 1, s, acc =>
    match skipWs s with
    | '"' :: rest =>
      match parseStringBody (rest.length + 1) rest [] with
      | none => none
      | some (key, rest2) =>
        match skipWs rest2 with
        | ':' :: rest3 =>
          match parseValue fuel rest3 with
          | none => none
          | some (v, rest4) =>
            match skipWs rest4 with
            | ',' :: rest5 => parseMembers fuel rest5 ((key, v) :: acc)
            | c :: rest5 =>
              if c = rbrace then some (.jobj ((key, v) :: acc).reverse, rest5) else none
            | [] => none
        | _ => none
    | _ => none

/-- Array elements: `value (, value)* ]`. -/
def parseElems : ℕ → Str → List JVal → Option (JVal × Str)
  | 0, _, _ => none
  | fuel + 1, s, acc =>
    match parseValue fuel s with
    | none => none
    | some (v, rest) =>
      match skipWs rest with
      | ',' :: rest2 => parseElems fuel rest2 (v :: acc)
      | ']' :: rest2 => some (.jarr (v :: acc).reverse, rest2)
      | _ => none

end

/-- One quote evaluation inside a batch result (`QuoteEvaluation`,
matcher package, selector part, lines 395-399).  The Go `float64` score is
modelled as an exact rational. -/
structure QuoteEvaluation where
  index : ℤ
  score : ℚ
  reasoning : Str
  deriving Repr, DecidableEq, Inhabited

/-- A batch evaluation result (`BatchEvaluationResult`, matcher package,
selector part, lines 388-392). -/
structure BatchEvaluationResult where
  bestMatchIndex : ℤ
  evaluations : List QuoteEvaluation
  recommendation : Str
  deriving Repr, DecidableEq, Inhabited

/-- Go json field matching for a lowercase tag: exact-or-case-fold key
match (ASCII fold modelled by lowercasing). -/
def keyMatches (tag key : Str) : Bool := toLowerList key = tag

/-- Decode one evaluation object, mirroring Go's struct decoding: unknown
keys are ignored, `null` values leave the field at its zero value, a
wrong-typed value is an error, later duplicate keys win. -/
def decodeEval (v : JVal) : Option QuoteEvaluation :=
  match v with
  | .jnull => some ⟨0, 0, []⟩
  | .jobj fields =>
    fields.foldlM
      (fun (acc : QuoteEvaluation) kv =>
        if keyMatches (str "index") kv.1 then
          match kv.2 with
          | .jnull => some acc
          | .jnum (some z) _ => some { acc with index := z }
          | _ => none
        else if keyMatches (str "score") kv.1 then
          match kv.2 with
          | .jnull => some acc
          | .jnum _ q => some { acc with score := q }
          | _ => none
        else if keyMatches (str "reasoning") kv.1 then
          match kv.2 with
          | .jnull => some acc
          | .jstr s => some { acc with reasoning := s }
          | _ => none
        else some acc)
      ⟨0, 0, []⟩
  | _ => none

/-- Decode the anonymous batch-response struct of `EvaluateBatch`
(`best_match_index`, `evaluations`, `recommendation`); a `null` document
decodes to the zero value, as in Go. -/
def decodeBatch (v : JVal) : Option BatchEvaluationResult :=
  match v with
  | .jnull => some ⟨0, [], []⟩
  | .jobj fields =>
    fields.foldlM
      (fun (acc : BatchEvaluationResult) kv =>
        if keyMatches (str "best_match_index") kv.1 then
          match kv.2 with
          | .jnull => some acc
          | .jnum (some z) _ => some { acc with bestMatchIndex := z }
          | _ => none
        else if keyMatches (str "evaluations") kv.1 then
          match kv.2 with
          | .jnull => some acc
          | .jarr xs =>
            match xs.mapM decodeEval with
            | some evs => some { acc with evaluations := evs }
            | none => none
          | _ => none
        else if keyMatches (str "recommendation") kv.1 then
          match kv.2 with
          | .jnull => some acc
          | .jstr s => some { acc with recommendation := s }
          | _ => none
        else some acc)
      ⟨0, [], []⟩
  | _ => none

/-- Model of `json.Unmarshal(jsonStr, &result)` for the batch-response
struct: parse one JSON document, demand nothing but whitespace after it,
and decode. -/
def unmarshalBatch (s : Str) : Option BatchEvaluationResult :=
  match parseValue (2 * s.length + 2) s with
  | some (v, rest) => if (skipWs rest).isEmpty then decodeBatch v else none
  | none => none

/-- A quote record (`db.Quote`): only the fields the embedded matcher
logic reads.  `character = none` models a SQL NULL. -/
structure Quote where
  id : ℤ
  text : Str
  sourceBook : Str
  character : Option Str
  themes : Str
  deriving Repr, DecidableEq, Inhabited

/-- `Selector.EvaluateBatch` (matcher package, selector part,
lines 402-464).  The external completion call is passed in as an
`Except`: the prompt only feeds that external call, so it does not appear
in the model.  Control flow is verbatim: empty candidate list short-circuits
to `BestMatchIndex = -1`; a completion error is wrapped and propagated;
otherwise `extractJSON` runs first and, when it finds nothing, the WHOLE
response is handed to `json.Unmarshal`, whose failure is returned as an
error. -/
def evaluateBatch (quotes : List Quote) (completion : Except Str Str) :
    Except Str BatchEvaluationResult :=
  if quotes.isEmpty then .ok ⟨-1, [], []⟩
  else
    match completion with
    | .error e => .error (str "claude complete: " ++ e)
    | .ok response =>
      let jsonStr := extractJSON response
      let jsonStr2 := if jsonStr.isEmpty then response else jsonStr
      match unmarshalBatch jsonStr2 with
      | none => .error (str "parse response")
      | some result => .ok result

deriving instance DecidableEq for Except

/-- Formalisation of claim C1 as stated, at one input: a completion
response with no balanced JSON object yields a successful
"no suitable match" result (a non-error with a negative best-match index)
from `EvaluateBatch`. -/
def ClaimC1At (quotes : List Quote) (response : Str) : Prop :=
  extractJSON response = [] →
  ∃ r, evaluateBatch quotes (.ok response) = .ok r ∧ r.bestMatchIndex < 0

/-- C1 counterexample: for the plain-prose completion response
`"I could not find a suitable quote."` (no JSON anywhere), `EvaluateBatch`
on a nonempty candidate list falls back to unmarshalling the entire
response, which fails, and returns the error `"parse response"` — not a
successful "no suitable match" result. -/
theorem C1_counterexample :
    ¬ ClaimC1At [default] (str "I could not find a suitable quote.") ∧
    evaluateBatch [default] (.ok (str "I could not find a suitable quote.")) =
      .error (str "parse response") := by
  have heval : evaluateBatch [default] (.ok (str "I could not find a suitable quote.")) =
      .error (str "parse response") := by decide
  refine ⟨?_, heval⟩
  intro h
  rcases h (by decide) with ⟨r, hr, _⟩
  rw [heval] at hr
  exact Except.noConfusion hr

/-- C1 amended: `EvaluateBatch` signals "no suitable match" without error
only for an empty candidate list; for a nonempty list, a completion
response that contains no balanced JSON object and that does not itself
decode as JSON makes `EvaluateBatch` return a parse error.  (The
"no suitable match" conversion for out-of-range indices happens in
`Matcher.Match`, not here.) -/
theorem C1_evaluateBatch_fails_closed (quotes : List Quote) (response : Str)
    (hq : quotes ≠ [])
    (hnoJson : extractJSON response = [])
    (hnoParse : unmarshalBatch response = none) :
    evaluateBatch quotes (.ok response) = .error (str "parse response") ∧
    ∀ completion, evaluateBatch [] completion = .ok ⟨-1, [], []⟩ := by
  constructor
  · have h1 : quotes.isEmpty = false := by
      cases quotes with
      | nil => exact absurd rfl hq
      | cons a l => rfl
    unfold evaluateBatch
    simp [h1, hnoJson, hnoParse]
  · intro completion
    unfold evaluateBatch
    rfl

/-- Witness for C1 (amended) at a concrete input. -/
theorem C1_evaluateBatch_fails_closed_witness :
    evaluateBatch [default] (.ok (str "The second quote fits best.")) =
      .error (str "parse response") :=
  (C1_evaluateBatch_fails_closed [default] (str "The second quote fits best.")
    (by decide) (by decide) (by decide)).1

/-- A retrieval candidate (`VectorMatch` in the matcher package): a quote
paired with its similarity score.  The `float32` score is modelled as an
exact rational — only its ordering against the thresholds matters here. -/
structure VectorMatch where
  quote : Quote
  similarity : ℚ
  deriving Repr, DecidableEq, Inhabited

/-- A match result (`MatchResult`, matcher package lines 14-20). -/
structure MatchResult where
  quote : Quote
  trend : Trend
  vectorSimilarity : ℚ
  relevanceScore : ℚ
  reasoning : Str
  deriving Repr, DecidableEq, Inhabited

/-- `matcher.New`'s defaulting of `MinRelevance` (lines 55-58): a zero
config value becomes `0.6`. -/
def defaultMinRelevance (cfg : ℚ) : ℚ := if cfg = 0 then 3 / 5 else cfg

/-- `matcher.New`'s defaulting of `MinSimilarity` (lines 48-53): a zero
config value becomes `0.01`. -/
def defaultMinSimilarity (cfg : ℚ) : ℚ := if cfg = 0 then 1 / 100 else cfg

/-- The candidate filter applied inside `Matcher.Match` (lines 153-167 for
the VecLite branch; the legacy branch applies the same `sim ≥ threshold`
test inside `SearchWithThreshold`): keep candidates whose similarity is not
below `minSimilarity`. -/
def surviving (minSim : ℚ) (results : List VectorMatch) : List VectorMatch :=
  results.filter (fun c => ¬ (c.similarity < minSim))

/-- The `bestEval` lookup of `Matcher.Match` (lines 213-219): the first
evaluation whose index equals the best-match index. -/
def bestEvalFor (batch : BatchEvaluationResult) : Option QuoteEvaluation :=
  batch.evaluations.find? (fun e => e.index = batch.bestMatchIndex)

/-- The relevance taken by `Matcher.Match` (lines 221-224): the best
evaluation's score, or `0.0` when none was supplied. -/
def relevanceOf (batch : BatchEvaluationResult) : ℚ :=
  match bestEvalFor batch with
  | some e => e.score
  | none => 0

/-- The reasoning taken by `Matcher.Match` (lines 222-227): the best
evaluation's reasoning when non-empty, else the overall recommendation. -/
def reasoningOf (batch : BatchEvaluationResult) : Str :=
  match bestEvalFor batch with
  | some e => if e.reasoning.isEmpty then batch.recommendation else e.reasoning
  | none => batch.recommendation

/-- The effectful inputs of one `Matcher.Match` call: the index size, the
outcome of the retrieval backend (VecLite `HybridSearch` plus the SQLite
quote lookups, or the legacy embed + in-memory search — either way a
fallible call producing scored candidates), and the completion response
consumed by `EvaluateBatch`. -/
structure MatchEnv where
  indexSize : ℕ
  retrieval : Except Str (List VectorMatch)
  completion : Except Str Str
  deriving Repr

/-- `Matcher.Match` (matcher package lines 121-247), with the external
effects injected through `MatchEnv`.  Control flow is verbatim: empty index
errors; retrieval errors propagate wrapped; zero surviving candidates is a
successful `none`; the selector result feeds the bounds check on
`BestMatchIndex` and the `minRelevance` threshold, each yielding a
successful `none`; otherwise the match result carries the selector's score
and reasoning. -/
def matchModel (minSim minRel : ℚ) (env : MatchEnv) (trend : Trend) :
    Except Str (Option MatchResult) :=
  if env.indexSize = 0 then .error (str "no quotes in index")
  else
    match env.retrieval with
    | .error e => .error (str "veclite search: " ++ e)
    | .ok results =>
      let candidates := surviving minSim results
      if candidates.isEmpty then .ok none
      else
        match evaluateBatch (candidates.map (fun c => c.quote)) env.completion with
        | .error e => .error (str "evaluate batch: " ++ e)
        | .ok batch =>
          if batch.bestMatchIndex < 0 ∨ (candidates.length : ℤ) ≤ batch.bestMatchIndex then
            .ok none
          else
            let best := candidates.getD batch.bestMatchIndex.toNat default
            let relevance := relevanceOf batch
            if relevance < minRel then .ok none
            else .ok (some ⟨best.quote, trend, best.similarity, relevance, reasoningOf batch⟩)

/-- C2: `Matcher.Match` returns a successful no-result (`.ok none`) — never
an error — when zero candidates survive the `minSimilarity` threshold, when
the selector names no valid best-match index, or when the chosen
candidate's relevance is below `minRelevance` (whose configured default is
0.6); whereas retrieval and completion errors propagate as errors.  All
cases assume a nonempty index, as in the code (an empty index is a distinct
error path). -/
theorem C2_match_no_result_vs_error (minSim minRel : ℚ) (env : MatchEnv) (trend : Trend)
    (hIdx : env.indexSize ≠ 0) :
    (∀ results, env.retrieval = .ok results →
      (surviving minSim results).isEmpty = true →
      matchModel minSim minRel env trend = .ok none) ∧
    (∀ results batch, env.retrieval = .ok results →
      (surviving minSim results).isEmpty = false →
      evaluateBatch ((surviving minSim results).map (fun c => c.quote)) env.completion =
        .ok batch →
      (batch.bestMatchIndex < 0 ∨
        ((surviving minSim results).length : ℤ) ≤ batch.bestMatchIndex) →
      matchModel minSim minRel env trend = .ok none) ∧
    (∀ results batch, env.retrieval = .ok results →
      (surviving minSim results).isEmpty = false →
      evaluateBatch ((surviving minSim results).map (fun c => c.quote)) env.completion =
        .ok batch →
      ¬ (batch.bestMatchIndex < 0 ∨
        ((surviving minSim results).length : ℤ) ≤ batch.bestMatchIndex) →
      relevanceOf batch < minRel →
      matchModel minSim minRel env trend = .ok none) ∧
    (∀ e, env.retrieval = .error e →
      matchModel minSim minRel env trend = .error (str "veclite search: " ++ e)) ∧
    (∀ results e, env.retrieval = .ok results →
      (surviving minSim results).isEmpty = false →
      env.completion = .error e →
      matchModel minSim minRel env trend =
        .error (str "evaluate batch: " ++ (str "claude complete: " ++ e))) ∧
    defaultMinRelevance 0 = 3 / 5 := by
  refine ⟨?_, ?_, ?_, ?_, ?_, rfl⟩
  · intro results hr hempty
    unfold matchModel
    rw [if_neg hIdx, hr]
    simp [hempty]
  · intro results batch hr hne heval hbounds
    unfold matchModel
    rw [if_neg hIdx, hr]
    simp only [hne, Bool.false_eq_true, if_false, heval, if_pos hbounds]
  · intro results batch hr hne heval hbounds hrel
    unfold matchModel
    rw [if_neg hIdx, hr]
    simp only [hne, Bool.false_eq_true, if_false, heval, if_neg hbounds, if_pos hrel]
  · intro e hr
    unfold matchModel
    rw [if_neg hIdx, hr]
  · intro results e hr hne hc
    unfold matchModel
    rw [if_neg hIdx, hr]
    have hmap : ((surviving minSim results).map (fun c => c.quote)).isEmpty = false := by
      rw [List.isEmpty_eq_false_iff_exists_mem] at hne ⊢
      rcases hne with ⟨x, hx⟩
      exact ⟨x.quote, List.mem_map_of_mem _ hx⟩
    have heb : evaluateBatch ((surviving minSim results).map (fun c => c.quote))
        env.completion = .error (str "claude complete: " ++ e) := by
      unfold evaluateBatch
      rw [hmap, hc]
      simp
    simp only [hne, Bool.false_eq_true, if_false, heb]

/-- Witness for C2 at a concrete input: with index size 1 and a retrieval
returning no candidates at all, `Match` returns a successful `none`. -/
theorem C2_match_no_result_vs_error_witness :
    matchModel (1 / 100) (3 / 5)
      ⟨1, .ok [], .ok (str "unused")⟩ default = .ok none :=
  (C2_match_no_result_vs_error (1 / 100) (3 / 5) ⟨1, .ok [], .ok (str "unused")⟩ default
      (by decide)).1 [] rfl (by decide)

/-- Sum of squares of a vector (the `normA`/`normB` accumulators of
`CosineSimilarity` and the `norm` accumulator of `Normalize`,
`internal/embedder/embedder.go`). -/
def sumSq (a : List ℝ) : ℝ := (a.map fun x => x * x).sum

/-- Dot product (the `dotProduct` accumulator of `CosineSimilarity`). -/
def dotProd (a b : List ℝ) : ℝ := (List.zipWith (fun x y => x * y) a b).sum

theorem sumSq_nonneg (a : List ℝ) : 0 ≤ sumSq a := by
  apply List.sum_nonneg
  intro x hx
  rcases List.mem_map.mp hx with ⟨y, _, rfl⟩
  exact mul_self_nonneg y

theorem zipWith_mul_self (a : List ℝ) :
    List.zipWith (fun x y => x * y) a a = a.map fun x => x * x := by
  induction a with
  | nil => rfl
  | cons x rest ih => simp [List.zipWith, ih]

theorem dotProd_neg_self (a : List ℝ) : dotProd a (a.map fun x => -x) = -sumSq a := by
  induction a with
  | nil => simp [dotProd, sumSq]
  | cons x rest ih =>
    show x * -x + dotProd rest (rest.map fun y => -y) = -(x * x + sumSq rest)
    rw [ih]
    ring

theorem sumSq_neg (a : List ℝ) : sumSq (a.map fun x => -x) = sumSq a := by
  unfold sumSq
  rw [List.map_map]
  congr 1
  apply List.map_congr_left
  intro x _
  simp

/-- `CosineSimilarity` (`internal/embedder/embedder.go` lines 210-227),
in exact real arithmetic: mismatched lengths and zero norms yield `0`;
otherwise the usual quotient.  (The Go code accumulates in `float64` and
casts the result to `float32`; rounding is out of scope here.) -/
noncomputable def CosineSimilarity (a b : List ℝ) : ℝ :=
  if a.length ≠ b.length then 0
  else if sumSq a = 0 ∨ sumSq b = 0 then 0
  else dotProd a b / (Real.sqrt (sumSq a) * Real.sqrt (sumSq b))

/-- `Normalize` (`internal/embedder/embedder.go` lines 230-247): the zero
vector is returned unchanged, anything else is scaled to unit length. -/
noncomputable def Normalize (a : List ℝ) : List ℝ :=
  if sumSq a = 0 then a else a.map fun v => v / Real.sqrt (sumSq a)

/-- C9 counterexample: the claim quantifies over every vector `a`, but for
the zero vector both norms are zero and `CosineSimilarity` returns `0`,
not `1.0` (nor anything within floating tolerance of it). -/
theorem C9_counterexample :
    CosineSimilarity [(0 : ℝ)] [0] = 0 ∧ (0 : ℝ) ≠ 1 := by
  constructor
  · unfold CosineSimilarity
    simp [sumSq]
  · norm_num

/-- C9 amended: `CosineSimilarity` is a total function; for every vector
`a` of NONZERO norm, `CosineSimilarity a a = 1` (exactly, in the
real-arithmetic model); a zero dot product yields `0`; the exact opposite
of a nonzero vector yields `-1`; mismatched dimensions yield `0`.  The
zero vector yields `0`, not `1`. -/
theorem C9_cosine_similarity (a b : List ℝ) :
    (sumSq a ≠ 0 → CosineSimilarity a a = 1) ∧
    (dotProd a b = 0 → CosineSimilarity a b = 0) ∧
    (sumSq a ≠ 0 → CosineSimilarity a (a.map fun x => -x) = -1) ∧
    (a.length ≠ b.length → CosineSimilarity a b = 0) := by
  refine ⟨?_, ?_, ?_, ?_⟩
  · intro ha
    unfold CosineSimilarity
    rw [if_neg (by simp), if_neg (by simpa using ha)]
    rw [Real.mul_self_sqrt (sumSq_nonneg a)]
    rw [show dotProd a a = sumSq a from by rw [dotProd, zipWith_mul_self]; rfl]
    exact div_self ha
  · intro hd
    unfold CosineSimilarity
    by_cases hl : a.length ≠ b.length
    · rw [if_pos hl]
    · rw [if_neg hl]
      by_cases hz : sumSq a = 0 ∨ sumSq b = 0
      · rw [if_pos hz]
      · rw [if_neg hz, hd, zero_div]
  · intro ha
    unfold CosineSimilarity
    rw [if_neg (by simp), sumSq_neg]
    rw [if_neg (by simpa using ha)]
    rw [Real.mul_self_sqrt (sumSq_nonneg a)]
    rw [dotProd_neg_self, neg_div, div_self ha]
  · intro hl
    unfold CosineSimilarity
    rw [if_pos hl]

/-- Witness for C9 (amended): at `a = [1]` the self-similarity is exactly
`1`. -/
theorem C9_cosine_similarity_witness : CosineSimilarity [(1 : ℝ)] [1] = 1 :=
  (C9_cosine_similarity [1] [1]).1 (by norm_num [sumSq])

/-- The in-memory vector index (`VectorIndex`, matcher package): parallel
lists of quotes and (pre-normalized) embeddings. -/
structure VectorIndex where
  quotes : List Quote
  embeddings : List (List ℝ)

/-- `NewVectorIndex` (matcher package): store the quotes and the
`Normalize`d embeddings, position by position. -/
noncomputable def NewVectorIndex (input : List (Quote × List ℝ)) : VectorIndex :=
  { quotes := input.map Prod.fst
    embeddings := input.map fun qe => Normalize qe.2 }

/-- The scored list built by `Search`/`SearchWithThreshold` (matcher
package, lines 54-60 and 92-100): for every stored embedding, its index
paired with the cosine similarity of the normalized query against it.
A result entry `(i, s)` stands for the Go `VectorMatch{v.quotes[i], s}`. -/
noncomputable def searchScores (v : VectorIndex) (q : List ℝ) : List (ℕ × ℝ) :=
  (List.range v.embeddings.length).map fun i =>
    (i, CosineSimilarity (Normalize q) (v.embeddings.getD i []))

/-- The contract of Go's `sort.Slice` with comparator
`less i j := key lᵢ > key lⱼ`: the output is SOME permutation of the input
that is sorted descending by `key`.  `sort.Slice` is documented as NOT
stable, so this relation — and not a function — is the faithful embedding;
every admissible output is included. -/
def sortSliceRel (key : ℕ × ℝ → ℝ) (input output : List (ℕ × ℝ)) : Prop :=
  output.Perm input ∧ output.Pairwise fun a b => key b ≤ key a

/-- `VectorIndex.Search` (matcher package, lines 40-81), relationally: an
empty index yields `nil`; otherwise sort all scores descending
(`sort.Slice`) and take the first `min k n` (`if k > len { k = len }`).
A negative Go `k` would panic in `make`; `k : ℕ` models the non-panicking
domain. -/
noncomputable def SearchRel (v : VectorIndex) (q : List ℝ) (k : ℕ)
    (out : List (ℕ × ℝ)) : Prop :=
  (v.quotes = [] ∧ out = []) ∨
  (v.quotes ≠ [] ∧ ∃ sorted, sortSliceRel Prod.snd (searchScores v q) sorted ∧
    out = sorted.take (min k v.quotes.length))

/-- The threshold-filtered scored list of `SearchWithThreshold` (lines
92-100): keep `sim ≥ threshold`, in index order. -/
noncomputable def thresholdScores (v : VectorIndex) (q : List ℝ) (t : ℝ) : List (ℕ × ℝ) :=
  (searchScores v q).filter fun p => t ≤ p.2

/-- `VectorIndex.SearchWithThreshold` (matcher package, lines 84-112),
relationally: empty index yields `nil`; otherwise filter by the threshold,
sort descending, and truncate to `maxResults` only when
`maxResults > 0 && len(results) > maxResults`. -/
noncomputable def SearchWithThresholdRel (v : VectorIndex) (q : List ℝ) (t : ℝ)
    (maxResults : ℤ) (out : List (ℕ × ℝ)) : Prop :=
  (v.quotes = [] ∧ out = []) ∨
  (v.quotes ≠ [] ∧ ∃ sorted, sortSliceRel Prod.snd (thresholdScores v q t) sorted ∧
    out = if 0 < maxResults ∧ maxResults < (sorted.length : ℤ)
      then sorted.take maxResults.toNat else sorted)

/-- C3: every admissible `SearchWithThreshold` output contains only entries
with similarity `≥ t`, is sorted by similarity descending, has at most
`maxResults` entries when `maxResults > 0`, is unbounded (the full filtered
list) when `maxResults ≤ 0`, and an empty index yields the empty result —
the function is total, so no error is possible. -/
theorem C3_search_with_threshold (v : VectorIndex) (q : List ℝ) (t : ℝ)
    (maxResults : ℤ) (out : List (ℕ × ℝ))
    (hlen : v.embeddings.length = v.quotes.length)
    (h : SearchWithThresholdRel v q t maxResults out) :
    (∀ p ∈ out, t ≤ p.2) ∧
    (out.Pairwise fun a b => b.2 ≤ a.2) ∧
    (0 < maxResults → (out.length : ℤ) ≤ maxResults) ∧
    (maxResults ≤ 0 → out.length = (thresholdScores v q t).length) ∧
    (v.quotes = [] → out = []) := by
  rcases h with ⟨hq, hout⟩ | ⟨hq, sorted, ⟨hperm, hsort⟩, hout⟩
  · subst hout
    have hemb : v.embeddings = [] := by
      rw [hq] at hlen
      exact List.length_eq_zero.mp hlen
    refine ⟨by simp, by simp, ?_, ?_, fun _ => rfl⟩
    · intro hmax
      simp only [List.length_nil, Nat.cast_zero]
      omega
    · intro _
      simp [thresholdScores, searchScores, hemb]
  · have hmem : ∀ p ∈ out, p ∈ thresholdScores v q t := by
      intro p hp
      apply hperm.mem_iff.mp
      by_cases hcond : 0 < maxResults ∧ maxResults < (sorted.length : ℤ)
      · rw [hout, if_pos hcond] at hp
        exact List.mem_of_mem_take hp
      · rw [hout, if_neg hcond] at hp
        exact hp
    refine ⟨?_, ?_, ?_, ?_, fun habs => absurd habs hq⟩
    · intro p hp
      have := hmem p hp
      have := List.mem_filter.mp this
      exact of_decide_eq_true this.2
    · by_cases hcond : 0 < maxResults ∧ maxResults < (sorted.length : ℤ)
      · rw [hout, if_pos hcond]
        exact hsort.sublist (List.take_sublist _ _)
      · rw [hout, if_neg hcond]
        exact hsort
    · intro hmax
      by_cases hcond : 0 < maxResults ∧ maxResults < (sorted.length : ℤ)
      · rw [hout, if_pos hcond]
        have := List.length_take_le maxResults.toNat sorted
        have h2 : (maxResults.toNat : ℤ) = maxResults := Int.toNat_of_nonneg (le_of_lt hmax)
        omega
      · rw [hout, if_neg hcond]
        rw [not_and] at hcond
        have := hcond hmax
        omega
    · intro hmax
      have hcond : ¬ (0 < maxResults ∧ maxResults < (sorted.length : ℤ)) := by
        intro hc
        omega
      rw [hout, if_neg hcond]
      exact hperm.length_eq

theorem normalize_single_one : Normalize [(1 : ℝ)] = [1] := by
  unfold Normalize
  rw [if_neg (by norm_num [sumSq])]
  norm_num [sumSq, Real.sqrt_one]

theorem cosine_single_one : CosineSimilarity [(1 : ℝ)] [1] = 1 := by
  unfold CosineSimilarity
  rw [if_neg (by simp), if_neg (by norm_num [sumSq])]
  norm_num [sumSq, dotProd, Real.sqrt_one]

/-- Witness for C3 at a concrete input: the empty index with
`maxResults = 1` admits only the empty result, which trivially satisfies
the bound. -/
theorem C3_search_with_threshold_witness :
    (∀ p ∈ ([] : List (ℕ × ℝ)), (1 : ℝ) / 2 ≤ p.2) ∧
    (([] : List (ℕ × ℝ)).Pairwise fun a b => b.2 ≤ a.2) :=
  let h := C3_search_with_threshold (NewVectorIndex []) [1] ((1 : ℝ) / 2) 1 [] rfl
    (Or.inl ⟨rfl, rfl⟩)
  ⟨h.1, h.2.1⟩

/-- Formalisation of claim C4 as stated: every admissible `Search` output
is sorted by similarity descending AND entries of equal similarity appear
in their original insertion order (the stable-sort property). -/
def ClaimC4Prop : Prop :=
  ∀ (input : List (Quote × List ℝ)) (q : List ℝ) (k : ℕ) (out : List (ℕ × ℝ)),
    SearchRel (NewVectorIndex input) q k out →
    (out.Pairwise fun a b => b.2 ≤ a.2) ∧
    (out.Pairwise fun a b => a.2 = b.2 → a.1 < b.1)

/-- C4 counterexample: with two identical stored embeddings `[1]` and the
query `[1]`, both scores are exactly `1`; `sort.Slice` is not stable, so
the reversed order `[(1,1), (0,1)]` is an admissible `Search` output, and
it violates the insertion-order tie-breaking the claim promises. -/
theorem C4_counterexample : ¬ ClaimC4Prop := by
  intro h
  have hscores : searchScores (NewVectorIndex [(default, [1]), (default, [1])]) [1] =
      [(0, (1 : ℝ)), (1, 1)] := by
    simp [searchScores, NewVectorIndex, List.range, List.range.loop,
      normalize_single_one, cosine_single_one]
  have hrel : SearchRel (NewVectorIndex [(default, [1]), (default, [1])]) [1] 2
      [(1, (1 : ℝ)), (0, 1)] := by
    right
    refine ⟨by simp [NewVectorIndex], [(1, (1 : ℝ)), (0, 1)], ⟨?_, ?_⟩, ?_⟩
    · rw [hscores]
      exact List.Perm.swap _ _ _
    · simp
    · simp [NewVectorIndex]
  have hties := (h _ _ _ _ hrel).2
  have := (List.pairwise_cons.mp hties).1 (0, 1) (by simp)
  have := this rfl
  omega

/-- C4 amended: every admissible `Search` output is sorted by cosine
similarity descending, has exactly `min k n` entries, and is a top-`k`
selection (every omitted score is bounded by every returned one) — but
equal-similarity ties may appear in ANY order, because the code sorts with
`sort.Slice`, which is not a stable sort (`sort.SliceStable` would be
needed for insertion-order ties). -/
theorem C4_search_topk (v : VectorIndex) (q : List ℝ) (k : ℕ) (out : List (ℕ × ℝ))
    (hlen : v.embeddings.length = v.quotes.length)
    (h : SearchRel v q k out) :
    (out.Pairwise fun a b => b.2 ≤ a.2) ∧
    out.length = min k v.quotes.length ∧
    ∃ rest, (out ++ rest).Perm (searchScores v q) ∧
      ∀ a ∈ out, ∀ b ∈ rest, b.2 ≤ a.2 := by
  rcases h with ⟨hq, hout⟩ | ⟨hq, sorted, ⟨hperm, hsort⟩, hout⟩
  · subst hout
    refine ⟨by simp, ?_, searchScores v q, by simp, by simp⟩
    rw [hq]
    simp
  · have hslen : sorted.length = v.quotes.length := by
      have h1 := hperm.length_eq
      have h2 : (searchScores v q).length = v.embeddings.length := by
        simp [searchScores]
      omega
    subst hout
    refine ⟨hsort.sublist (List.take_sublist _ _), ?_, sorted.drop (min k v.quotes.length),
      ?_, ?_⟩
    · rw [List.length_take, hslen]
      omega
    · rw [List.take_append_drop]
      exact hperm
    · have hsplit := hsort
      rw [← List.take_append_drop (min k v.quotes.length) sorted] at hsplit
      exact (List.pairwise_append.mp hsplit).2.2

/-- Witness for C4 (amended) at a concrete input: the empty index admits
only the empty output, of length `min 5 0 = 0`. -/
theorem C4_search_topk_witness :
    ([] : List (ℕ × ℝ)).Pairwise (fun a b => b.2 ≤ a.2) ∧
    ([] : List (ℕ × ℝ)).length = min 5 (NewVectorIndex []).quotes.length :=
  let h := C4_search_topk (NewVectorIndex []) [1] 5 [] rfl (Or.inl ⟨rfl, rfl⟩)
  ⟨h.1, h.2.1⟩

/-- A persisted row of the `trends` table (migration in part_008):
`external_id` is nullable, and the Go code stores SQL NULL (`none`) when
the trend's external id is the empty string. -/
structure TrendRow where
  source : Str
  externalId : Option Str
  title : Str
  url : Option Str
  description : Option Str
  score : Option ℤ
  deriving Repr, DecidableEq

/-- The `trends` table state, insertion-ordered. -/
abbrev TrendsTable := List TrendRow

/-- `GetTrendBySourceAndExternalID` (query in part_008:
`WHERE source = ? AND external_id = ?`).  The aggregator always binds the
`external_id` parameter non-null (`Valid: true`), and SQL `=` never
matches a NULL column, so only rows with `externalId = some eid` match. -/
def getTrendBySourceAndExternalID (db : TrendsTable) (source eid : Str) : Option TrendRow :=
  db.find? fun r => decide (r.source = source ∧ r.externalId = some eid)

/-- `CreateTrend` (query in part_008) with the parameters built in
`Aggregator.storeTrend` (aggregator.go lines 118-125): `external_id`,
`url` and `description` become NULL when the corresponding string is
empty.  The unique index `idx_trends_source_external` cannot reject this
insert in the sequential executions modelled here: a non-null duplicate is
caught by the preceding lookup, and SQLite treats NULLs in a unique index
as distinct. -/
def createTrend (db : TrendsTable) (t : Trend) : TrendsTable :=
  db ++ [{ source := t.source
           externalId := if t.externalId.isEmpty then none else some t.externalId
           title := t.title
           url := if t.url.isEmpty then none else some t.url
           description := if t.description.isEmpty then none else some t.description
           score := some t.score }]

/-- `Aggregator.storeTrend` (aggregator.go lines 101-132): look the trend
up by `(source, externalId)`; if found, report "not new" and leave the
table unchanged; otherwise insert and report "new".  (The lookup's
non-`ErrNoRows` error path is operational-failure plumbing outside this
pure model.) -/
def storeTrend (db : TrendsTable) (t : Trend) : Bool × TrendsTable :=
  match getTrendBySourceAndExternalID db t.source t.externalId with
  | some _ => (false, db)
  | none => (true, createTrend db t)

/-- The store loop of `Aggregator.FetchAndStore` (aggregator.go lines
75-89): store each filtered trend in order, collecting those reported
new. -/
def storeAll (db : TrendsTable) : List Trend → List Trend × TrendsTable
  | [] => ([], db)
  | t :: rest =>
    let step := storeTrend db t
    let restResult := storeAll step.2 rest
    (if step.1 then t :: restResult.1 else restResult.1, restResult.2)

/-- `Aggregator.FetchAndStore` (aggregator.go lines 43-98): concatenate
the successful monitors' trends (a failing monitor is skipped), filter
them, then store with dedup, returning the new trends. -/
def fetchAndStore (monitorResults : List (Except Str (List Trend))) (f : Filter)
    (db : TrendsTable) : List Trend × TrendsTable :=
  let allTrends := monitorResults.foldl
    (fun acc r => match r with | .ok ts => acc ++ ts | .error _ => acc) []
  storeAll db (f.FilterTrends allTrends)

/-- A row with the trend's `(source, externalId)` key is present
(non-null external id, as the lookup requires). -/
def hasKeyRow (db : TrendsTable) (t : Trend) : Prop :=
  ∃ r ∈ db, r.source = t.source ∧ r.externalId = some t.externalId

/-- Number of rows carrying the trend's key. -/
def countKeyRows (db : TrendsTable) (t : Trend) : ℕ :=
  (db.filter fun r => decide (r.source = t.source ∧ r.externalId = some t.externalId)).length

theorem getTrend_eq_none_iff (db : TrendsTable) (t : Trend) :
    getTrendBySourceAndExternalID db t.source t.externalId = none ↔ ¬ hasKeyRow db t := by
  unfold getTrendBySourceAndExternalID hasKeyRow
  rw [List.find?_eq_none]
  constructor
  · intro h ⟨r, hr, hkey⟩
    exact absurd (decide_eq_true hkey) (by simpa using h r hr)
  · intro h r hr
    simp only [decide_eq_true_eq]
    intro hkey
    exact h ⟨r, hr, hkey⟩

theorem hasKeyRow_storeTrend_mono (db : TrendsTable) (t x : Trend)
    (h : hasKeyRow db t) : hasKeyRow (storeTrend db x).2 t := by
  rcases h with ⟨r, hr, hkey⟩
  unfold storeTrend
  cases hfind : getTrendBySourceAndExternalID db x.source x.externalId with
  | some w => exact ⟨r, hr, hkey⟩
  | none => exact ⟨r, by simp [createTrend, List.mem_append, hr], hkey⟩

theorem storeAll_new_not_present (ts : List Trend) (db : TrendsTable) :
    ∀ t' ∈ (storeAll db ts).1, ¬ hasKeyRow db t' := by
  induction ts generalizing db with
  | nil => simp [storeAll]
  | cons t rest ih =>
    intro t' ht' hkey
    simp only [storeAll] at ht'
    by_cases hnew : (storeTrend db t).1 = true
    · rw [if_pos hnew] at ht'
      rcases List.mem_cons.mp ht' with rfl | hmem
      · have hnone : getTrendBySourceAndExternalID db t'.source t'.externalId = none := by
          unfold storeTrend at hnew
          cases hfind : getTrendBySourceAndExternalID db t'.source t'.externalId with
          | some w => rw [hfind] at hnew; exact absurd hnew (by simp)
          | none => rfl
        exact absurd hkey ((getTrend_eq_none_iff db t').mp hnone)
      · exact ih (storeTrend db t).2 t' hmem (hasKeyRow_storeTrend_mono db t' t hkey)
    · rw [if_neg hnew] at ht'
      exact ih (storeTrend db t).2 t' ht' (hasKeyRow_storeTrend_mono db t' t hkey)

/-- Formalisation of claim C5 as stated: for EVERY trend and any starting
table, a second store of the same trend reports "not new" and adds no
row. -/
def ClaimC5Prop : Prop :=
  ∀ (db : TrendsTable) (t : Trend),
    (storeTrend (storeTrend db t).2 t).1 = false ∧
    (storeTrend (storeTrend db t).2 t).2.length = (storeTrend db t).2.length

/-- C5 counterexample: a trend with an EMPTY `externalId` (permitted by the
data model) is stored with a NULL `external_id`, which the equality lookup
`external_id = ''` can never find; so the second store call also reports
"new" and inserts a second row. -/
theorem C5_counterexample : ¬ ClaimC5Prop := by
  intro h
  have := h [] default
  revert this
  decide

/-- C5 amended: for every trend with a NONEMPTY `externalId`, storing it
twice yields exactly one persisted row for its `(source, externalId)` key
(starting from a table without that key), the second store call reports
"not new" and leaves the table unchanged, and a trend whose key is already
persisted never appears in `FetchAndStore`'s returned list of new trends.
A trend with an empty `externalId` is stored as NULL and is re-inserted on
every store call ("unique per store call"). -/
theorem C5_store_idempotent (db : TrendsTable) (t : Trend)
    (hid : t.externalId ≠ []) :
    (storeTrend (storeTrend db t).2 t).1 = false ∧
    (storeTrend (storeTrend db t).2 t).2 = (storeTrend db t).2 ∧
    (¬ hasKeyRow db t → countKeyRows (storeTrend (storeTrend db t).2 t).2 t = 1) ∧
    (∀ monitorResults f, hasKeyRow db t → t ∉ (fetchAndStore monitorResults f db).1) := by
  have hkeyAfter : ∀ db' : TrendsTable,
      getTrendBySourceAndExternalID db' t.source t.externalId = none →
      getTrendBySourceAndExternalID (createTrend db' t) t.source t.externalId ≠ none := by
    intro db' hnone
    unfold createTrend getTrendBySourceAndExternalID at *
    rw [List.find?_append, hnone]
    simp [List.find?, hid]
  have hsecond : (storeTrend (storeTrend db t).2 t).1 = false ∧
      (storeTrend (storeTrend db t).2 t).2 = (storeTrend db t).2 := by
    unfold storeTrend
    cases hfind : getTrendBySourceAndExternalID db t.source t.externalId with
    | some w => simp [hfind]
    | none =>
      simp only [hfind]
      cases hfind2 : getTrendBySourceAndExternalID (createTrend db t) t.source t.externalId with
      | some w => simp
      | none => exact absurd hfind2 (hkeyAfter db hfind)
  refine ⟨hsecond.1, hsecond.2, ?_, ?_⟩
  · intro hnokey
    rw [hsecond.2]
    have hfind : getTrendBySourceAndExternalID db t.source t.externalId = none :=
      (getTrend_eq_none_iff db t).mpr hnokey
    unfold storeTrend
    rw [hfind]
    unfold countKeyRows createTrend
    rw [List.filter_append]
    have hdbpart : (db.filter fun r =>
        decide (r.source = t.source ∧ r.externalId = some t.externalId)).length = 0 := by
      rw [List.length_eq_zero, List.filter_eq_nil]
      intro r hr
      simp only [decide_eq_true_eq]
      intro hkey
      exact hnokey ⟨r, hr, hkey⟩
    rw [List.length_append, hdbpart]
    simp [hid]
  · intro monitorResults f hkey ht
    exact storeAll_new_not_present _ db t ht hkey

/-- Witness for C5 (amended) at a concrete input: one trend with
external id `"1"` stored twice from the empty table leaves exactly one
row. -/
theorem C5_store_idempotent_witness :
    (storeTrend (storeTrend [] ⟨str "hn", str "1", str "T", [], [], 5⟩).2
      ⟨str "hn", str "1", str "T", [], [], 5⟩).1 = false ∧
    countKeyRows (storeTrend (storeTrend [] ⟨str "hn", str "1", str "T", [], [], 5⟩).2
      ⟨str "hn", str "1", str "T", [], [], 5⟩).2 ⟨str "hn", str "1", str "T", [], [], 5⟩ = 1 :=
  let h := C5_store_idempotent [] ⟨str "hn", str "1", str "T", [], [], 5⟩ (by decide)
  ⟨h.1, h.2.2.1 (by simp [hasKeyRow])⟩

/-- Observable effects of one `runPostCycle` call: how many times the
publishing capability (`poster.Post`) was invoked, how many times a Post
row creation (`store.CreatePost`) was attempted, and which trend ids were
marked skipped. -/
structure PostCycleTrace where
  publishAttempts : ℕ
  createPostCalls : ℕ
  trendsMarkedSkipped : List ℤ
  deriving Repr, DecidableEq

/-- The no-effect trace. -/
def emptyPostCycleTrace : PostCycleTrace := ⟨0, 0, []⟩

/-- The publish result returned by the posting capability. -/
structure PostResult where
  postId : Str
  postUrl : Str
  deriving Repr, DecidableEq, Inhabited

/-- The effectful inputs of one `runPostCycle` call
(`internal/scheduler/scheduler.go` lines 167-281): the outcome of
`CountPostsToday(ctx, "bluesky")`, the configured `MaxPostsPerDay`, the
outcome of `GetUnmatchedTrends` (trend ids, most recent first), the
per-trend outcome of `Matcher.Match`, and the outcome of `poster.Post`
should a publish be attempted. -/
structure PostCycleEnv where
  countToday : Except Str ℤ
  maxPostsPerDay : ℤ
  unmatched : Except Str (List ℤ)
  matchOutcome : ℤ → Except Str (Option MatchResult)
  postOutcome : Except Str PostResult

/-- The match loop of `runPostCycle` (scheduler.go lines 193-213): walk the
unmatched trends in order; a match error is logged and the trend is NOT
marked; a successful match stops the loop; a successful no-match marks the
trend skipped and continues.  Returns the chosen match (if any) and the
ids marked skipped, in order. -/
def findMatchLoop (matchOutcome : ℤ → Except Str (Option MatchResult)) :
    List ℤ → Option MatchResult × List ℤ
  | [] => (none, [])
  | t :: rest =>
    match matchOutcome t with
    | .error _ => findMatchLoop matchOutcome rest
    | .ok (some m) => (some m, [])
    | .ok none =>
      let r := findMatchLoop matchOutcome rest
      (r.1, t :: r.2)

/-- The quota check of `runPostCycle` (scheduler.go lines 170-177): the
cycle stops early exactly when the count SUCCEEDS and
`postsToday >= MaxPostsPerDay`; a count error is only logged and the check
is skipped. -/
def quotaReached (env : PostCycleEnv) : Bool :=
  match env.countToday with
  | .error _ => false
  | .ok n => decide (env.maxPostsPerDay ≤ n)

/-- Everything `runPostCycle` does after the quota check (scheduler.go
lines 179-281): fetch unmatched trends (an error or an empty list ends the
cycle), run the match loop, and on a match publish once; a publish error
records nothing, a publish success attempts exactly one `CreatePost`. -/
def runPostCycleAfterQuota (env : PostCycleEnv) : PostCycleTrace :=
  match env.unmatched with
  | .error _ => emptyPostCycleTrace
  | .ok trends =>
    if trends.isEmpty then emptyPostCycleTrace
    else
      let loopResult := findMatchLoop env.matchOutcome trends
      match loopResult.1 with
      | none => { emptyPostCycleTrace with trendsMarkedSkipped := loopResult.2 }
      | some _ =>
        match env.postOutcome with
        | .error _ => { publishAttempts := 1, createPostCalls := 0,
                        trendsMarkedSkipped := loopResult.2 }
        | .ok _ => { publishAttempts := 1, createPostCalls := 1,
                     trendsMarkedSkipped := loopResult.2 }

/-- `Scheduler.runPostCycle` (scheduler.go lines 167-281): quota check
first, then the rest of the cycle. -/
def runPostCycle (env : PostCycleEnv) : PostCycleTrace :=
  if quotaReached env then emptyPostCycleTrace
  else runPostCycleAfterQuota env

/-- C8: whenever `CountPostsToday` succeeds with a count at or above
`MaxPostsPerDay`, the post cycle performs zero publish attempts and
attempts no Post record. -/
theorem C8_quota_enforcement (env : PostCycleEnv) (n : ℤ)
    (hcount : env.countToday = .ok n)
    (hquota : env.maxPostsPerDay ≤ n) :
    (runPostCycle env).publishAttempts = 0 ∧
    (runPostCycle env).createPostCalls = 0 := by
  have hq : quotaReached env = true := by
    simp only [quotaReached, hcount, decide_eq_true_eq]
    exact hquota
  unfold runPostCycle
  rw [if_pos hq]
  exact ⟨rfl, rfl⟩

/-- Witness for C8 at a concrete input: five posts already recorded with a
limit of five — even with an available trend, a willing matcher and a
healthy poster, nothing is published. -/
theorem C8_quota_enforcement_witness :
    (runPostCycle ⟨.ok 5, 5, .ok [1], fun _ => .ok (some default), .ok default⟩).publishAttempts
        = 0 ∧
    (runPostCycle ⟨.ok 5, 5, .ok [1], fun _ => .ok (some default), .ok default⟩).createPostCalls
        = 0 :=
  C8_quota_enforcement ⟨.ok 5, 5, .ok [1], fun _ => .ok (some default), .ok default⟩ 5
    rfl (by decide)

/-- C10: when `CountPostsToday` fails, the cycle logs and proceeds to
matching and publishing as if no quota applied; and the early quota return
happens exactly on a successful count meeting or exceeding the limit. -/
theorem C10_count_error_skips_quota (env : PostCycleEnv) (e : Str)
    (hcount : env.countToday = .error e) :
    runPostCycle env = runPostCycleAfterQuota env ∧
    (∀ env' : PostCycleEnv, quotaReached env' = true ↔
      ∃ n, env'.countToday = .ok n ∧ env'.maxPostsPerDay ≤ n) := by
  constructor
  · have hq : quotaReached env = false := by
      simp only [quotaReached, hcount]
    unfold runPostCycle
    rw [if_neg (by rw [hq]; exact Bool.false_ne_true)]
  · intro env'
    unfold quotaReached
    cases hc : env'.countToday with
    | error e' =>
      simp only [Bool.false_eq_true, false_iff]
      rintro ⟨n, hn, _⟩
      exact Except.noConfusion hn
    | ok n =>
      simp only [decide_eq_true_eq]
      constructor
      · intro h
        exact ⟨n, rfl, h⟩
      · rintro ⟨m, hm, hle⟩
        injection hm with hm
        rwa [hm]

/-- Witness for C10 at a concrete input: with a failing count, one
unmatched trend, a successful match and a healthy poster, the cycle
publishes — the quota is not enforced in that cycle. -/
theorem C10_count_error_skips_quota_witness :
    (runPostCycle ⟨.error (str "db locked"), 5, .ok [1],
        fun _ => .ok (some default), .ok default⟩).publishAttempts = 1 := by
  rw [(C10_count_error_skips_quota ⟨.error (str "db locked"), 5, .ok [1],
    fun _ => .ok (some default), .ok default⟩ (str "db locked") rfl).1]
  rfl

end Dostobot
